import Mathlib

/-!
Shallow embedding of `sound/sample.py` (waveform generators) and proofs of
the specification claims about it.  Real-valued quantities from the Python
source are modelled as rationals where no transcendental function is
involved, and as real numbers for the sine wave; Python's float modulo
`x % y` (which, for `y > 0`, returns a value in `[0, y)`) is modelled by
`fmod` below.
-/

set_option maxHeartbeats 1000000
set_option linter.unusedVariables false

namespace Sound

/-- Python's float modulo `x % y`: `x - y * floor (x / y)`. -/
def fmod {α : Type} [LinearOrderedField α] [FloorRing α] (x y : α) : α :=
  x - y * (⌊x / y⌋ : ℤ)

theorem fmod_eq_fract {α : Type} [LinearOrderedField α] [FloorRing α]
    (x y : α) (hy : y ≠ 0) : fmod x y = y * Int.fract (x / y) := by
  unfold fmod Int.fract
  field_simp

theorem fmod_nonneg {α : Type} [LinearOrderedField α] [FloorRing α]
    (x y : α) (hy : 0 < y) : 0 ≤ fmod x y := by
  rw [fmod_eq_fract x y hy.ne']
  exact mul_nonneg hy.le (Int.fract_nonneg _)

theorem fmod_lt {α : Type} [LinearOrderedField α] [FloorRing α]
    (x y : α) (hy : 0 < y) : fmod x y < y := by
  rw [fmod_eq_fract x y hy.ne']
  calc y * Int.fract (x / y) < y * 1 :=
        (mul_lt_mul_left hy).mpr (Int.fract_lt_one _)
    _ = y := mul_one y

theorem fmod_add_int_mul {α : Type} [LinearOrderedField α] [FloorRing α]
    (x y : α) (k : ℤ) (hy : y ≠ 0) : fmod (x + k * y) y = fmod x y := by
  unfold fmod
  have harg : (x + k * y) / y = x / y + k := by field_simp
  rw [harg, Int.floor_add_int]
  push_cast
  ring

namespace Sample

/-- `Sample.period`: `1 / frequency * SAMPLE_RATE` (defined for nonzero
frequency; the zero-frequency case, where Python raises, is modelled by
`periodE` further below). -/
def period {α : Type} [LinearOrderedField α] (SR frequency : α) : α :=
  1 / frequency * SR

theorem period_pos {α : Type} [LinearOrderedField α] (SR frequency : α)
    (hSR : 0 < SR) (hf : 0 < frequency) : 0 < period SR frequency := by
  unfold period
  positivity

end Sample

namespace SineWave

/-- `SineWave.amplitude`: `math.sin(frame * 2 * math.pi / self.period)`. -/
noncomputable def amplitude (SR frequency : ℝ) (frame : ℕ) : ℝ :=
  Real.sin ((frame : ℝ) * 2 * Real.pi / Sample.period SR frequency)

end SineWave

namespace SquareWave

/-- `SquareWave.amplitude`: `1 if frame % self.period < self.period*self.split else -1`. -/
def amplitude (SR frequency split : ℚ) (frame : ℕ) : ℚ :=
  if fmod (frame : ℚ) (Sample.period SR frequency)
      < Sample.period SR frequency * split then 1 else -1

end SquareWave

namespace SawtoothWave

/-- `SawtoothWave.amplitude`: `frame % self.period / self.period * 2 - 1`. -/
def amplitude (SR frequency : ℚ) (frame : ℕ) : ℚ :=
  fmod (frame : ℚ) (Sample.period SR frequency) / Sample.period SR frequency * 2 - 1

end SawtoothWave

namespace TriangleWave

/-- `TriangleWave.amplitude`: the three-branch piecewise-linear function of
`pframe = frame % period`, with `hperiod = period / 2`, `qperiod = hperiod / 2`. -/
def amplitude (SR frequency : ℚ) (frame : ℕ) : ℚ :=
  let pframe := fmod (frame : ℚ) (Sample.period SR frequency)
  let hperiod := Sample.period SR frequency / 2
  let qperiod := hperiod / 2
  if pframe < qperiod then
    pframe / qperiod
  else
    let pframe2 := pframe - qperiod
    if pframe2 < hperiod then
      pframe2 / (-hperiod) * 2 + 1
    else
      let pframe3 := pframe2 - hperiod
      pframe3 / qperiod - 1

end TriangleWave

namespace SineWave

theorem sine_mem (SR frequency : ℝ) (frame : ℕ) :
    -1 ≤ amplitude SR frequency frame ∧ amplitude SR frequency frame ≤ 1 :=
  ⟨Real.neg_one_le_sin _, Real.sin_le_one _⟩

theorem sine_periodic (SR frequency : ℝ) (p f k : ℕ) (hp : 0 < p)
    (hper : (p : ℝ) = Sample.period SR frequency) :
    amplitude SR frequency (f + k * p) = amplitude SR frequency f := by
  unfold amplitude
  rw [← hper]
  have hp0 : ((p : ℝ)) ≠ 0 := by
    exact_mod_cast hp.ne'
  have harg : ((f + k * p : ℕ) : ℝ) * 2 * Real.pi / (p : ℝ)
      = (f : ℝ) * 2 * Real.pi / (p : ℝ) + (k : ℕ) * (2 * Real.pi) := by
    push_cast
    field_simp
    ring
  rw [harg, Real.sin_add_nat_mul_two_pi]

end SineWave

namespace SquareWave

theorem square_mem (SR frequency split : ℚ) (frame : ℕ) :
    -1 ≤ amplitude SR frequency split frame ∧
      amplitude SR frequency split frame ≤ 1 := by
  unfold amplitude
  split_ifs <;> norm_num

theorem square_periodic (SR frequency split : ℚ) (p f k : ℕ) (hp : 0 < p)
    (hper : (p : ℚ) = Sample.period SR frequency) :
    amplitude SR frequency split (f + k * p) = amplitude SR frequency split f := by
  unfold amplitude
  rw [← hper]
  have hp0 : ((p : ℚ)) ≠ 0 := by exact_mod_cast hp.ne'
  have hcast : ((f + k * p : ℕ) : ℚ) = (f : ℚ) + ((k : ℤ) : ℚ) * (p : ℚ) := by
    push_cast
    ring
  rw [hcast, fmod_add_int_mul _ _ _ hp0]

end SquareWave

namespace SawtoothWave

theorem sawtooth_mem (SR frequency : ℚ) (frame : ℕ) (hSR : 0 < SR)
    (hf : 0 < frequency) :
    -1 ≤ amplitude SR frequency frame ∧ amplitude SR frequency frame ≤ 1 := by
  have hp : 0 < Sample.period SR frequency := Sample.period_pos SR frequency hSR hf
  have h0 : 0 ≤ fmod (frame : ℚ) (Sample.period SR frequency) := fmod_nonneg _ _ hp
  have h1 : fmod (frame : ℚ) (Sample.period SR frequency)
      < Sample.period SR frequency := fmod_lt _ _ hp
  unfold amplitude
  constructor
  · have : 0 ≤ fmod (frame : ℚ) (Sample.period SR frequency)
        / Sample.period SR frequency := div_nonneg h0 hp.le
    linarith
  · have : fmod (frame : ℚ) (Sample.period SR frequency)
        / Sample.period SR frequency < 1 := (div_lt_one hp).mpr h1
    linarith

theorem sawtooth_periodic (SR frequency : ℚ) (p f k : ℕ) (hp : 0 < p)
    (hper : (p : ℚ) = Sample.period SR frequency) :
    amplitude SR frequency (f + k * p) = amplitude SR frequency f := by
  unfold amplitude
  rw [← hper]
  have hp0 : ((p : ℚ)) ≠ 0 := by exact_mod_cast hp.ne'
  have hcast : ((f + k * p : ℕ) : ℚ) = (f : ℚ) + ((k : ℤ) : ℚ) * (p : ℚ) := by
    push_cast
    ring
  rw [hcast, fmod_add_int_mul _ _ _ hp0]

end SawtoothWave

namespace TriangleWave

theorem triangle_mem (SR frequency : ℚ) (frame : ℕ) (hSR : 0 < SR)
    (hf : 0 < frequency) :
    -1 ≤ amplitude SR frequency frame ∧ amplitude SR frequency frame ≤ 1 := by
  have hp : 0 < Sample.period SR frequency := Sample.period_pos SR frequency hSR hf
  have h0 : 0 ≤ fmod (frame : ℚ) (Sample.period SR frequency) := fmod_nonneg _ _ hp
  have h1 : fmod (frame : ℚ) (Sample.period SR frequency)
      < Sample.period SR frequency := fmod_lt _ _ hp
  have hq : 0 < Sample.period SR frequency / 2 / 2 := by positivity
  have hh : 0 < Sample.period SR frequency / 2 := by positivity
  unfold amplitude
  dsimp only
  split_ifs with hA hB
  · constructor
    · have : 0 ≤ fmod (frame : ℚ) (Sample.period SR frequency)
          / (Sample.period SR frequency / 2 / 2) := div_nonneg h0 hq.le
      linarith
    · have : fmod (frame : ℚ) (Sample.period SR frequency)
          / (Sample.period SR frequency / 2 / 2) < 1 := (div_lt_one hq).mpr hA
      linarith
  · have hm2 : 0 ≤ fmod (frame : ℚ) (Sample.period SR frequency)
        - Sample.period SR frequency / 2 / 2 := by linarith [not_lt.mp hA]
    have hd0 : 0 ≤ (fmod (frame : ℚ) (Sample.period SR frequency)
        - Sample.period SR frequency / 2 / 2) / (Sample.period SR frequency / 2) :=
      div_nonneg hm2 hh.le
    have hd1 : (fmod (frame : ℚ) (Sample.period SR frequency)
        - Sample.period SR frequency / 2 / 2) / (Sample.period SR frequency / 2) < 1 :=
      (div_lt_one hh).mpr hB
    have hneg : (fmod (frame : ℚ) (Sample.period SR frequency)
        - Sample.period SR frequency / 2 / 2) / -(Sample.period SR frequency / 2)
        = -((fmod (frame : ℚ) (Sample.period SR frequency)
        - Sample.period SR frequency / 2 / 2) / (Sample.period SR frequency / 2)) := by
      rw [div_neg]
    rw [hneg]
    constructor
    · linarith
    · linarith
  · have hm3 : 0 ≤ fmod (frame : ℚ) (Sample.period SR frequency)
        - Sample.period SR frequency / 2 / 2 - Sample.period SR frequency / 2 := by
      linarith [not_lt.mp hB]
    have hm3u : fmod (frame : ℚ) (Sample.period SR frequency)
        - Sample.period SR frequency / 2 / 2 - Sample.period SR frequency / 2
        < Sample.period SR frequency / 2 / 2 := by linarith
    have hd0 : 0 ≤ (fmod (frame : ℚ) (Sample.period SR frequency)
        - Sample.period SR frequency / 2 / 2 - Sample.period SR frequency / 2)
        / (Sample.period SR frequency / 2 / 2) := div_nonneg hm3 hq.le
    have hd1 : (fmod (frame : ℚ) (Sample.period SR frequency)
        - Sample.period SR frequency / 2 / 2 - Sample.period SR frequency / 2)
        / (Sample.period SR frequency / 2 / 2) < 1 := (div_lt_one hq).mpr hm3u
    constructor
    · linarith
    · linarith

theorem triangle_periodic (SR frequency : ℚ) (p f k : ℕ) (hp : 0 < p)
    (hper : (p : ℚ) = Sample.period SR frequency) :
    amplitude SR frequency (f + k * p) = amplitude SR frequency f := by
  unfold amplitude
  rw [← hper]
  have hp0 : ((p : ℚ)) ≠ 0 := by exact_mod_cast hp.ne'
  have hcast : ((f + k * p : ℕ) : ℚ) = (f : ℚ) + ((k : ℤ) : ℚ) * (p : ℚ) := by
    push_cast
    ring
  rw [hcast, fmod_add_int_mul _ _ _ hp0]

end TriangleWave

/-- The one exception the modelled code can raise: Python's
`ZeroDivisionError` from `1/self.frequency` when `frequency == 0`. -/
inductive PyError where
  | zeroDivision
deriving DecidableEq

namespace Sample

/-- `Sample.period` as executed by Python: `1/self.frequency * SAMPLE_RATE`
raises `ZeroDivisionError` when `frequency` is zero. -/
def periodE (SR frequency : ℚ) : Except PyError ℚ :=
  if frequency = 0 then Except.error PyError.zeroDivision
  else Except.ok (1 / frequency * SR)

end Sample

/-- A computation that returns normally (does not raise). -/
def returnsNormally {α : Type} (r : Except PyError α) : Prop :=
  ∃ v, r = Except.ok v

namespace Noise

/-- `Noise.__init__` calls `super().__init__(0)`: the stored frequency is 0. -/
def frequency : ℚ := 0

/-- `Noise.amplitude`: `random.random() * 2 - 1`, with the random draw
`u ∈ [0, 1)` passed explicitly.  The frame argument is unused and the period
property is never consulted, so the call always returns normally. -/
def amplitude (u : ℚ) (frame : ℕ) : Except PyError ℚ :=
  Except.ok (u * 2 - 1)

end Noise

/-- Clamp to `[-1, 1]`, matching the `if self.prev > 1 ... elif self.prev < -1`
branches of `BrownNoise.amplitude`. -/
def clamp (x : ℚ) : ℚ :=
  if x > 1 then 1 else if x < -1 then -1 else x

/-- One `BrownNoise.amplitude` state update with the already-scaled draw
`d = random.random()*2 - 1 ∈ [-1, 1)`: `prev += d * fac`, then clamp. -/
def brownStep (fac prev d : ℚ) : ℚ :=
  clamp (prev + d * fac)

/-- The sequence of values returned by successive `BrownNoise.amplitude`
calls, one per random draw in `draws`, starting from state `prev`. -/
def brownOutputs (fac prev : ℚ) : List ℚ → List ℚ
  | [] => []
  | d :: ds =>
    let p := brownStep fac prev d
    p :: brownOutputs fac p ds

namespace BrownNoise

/-- BrownNoise state: the stored frequency (always 0), the running value
`prev` and the step factor `fac`. -/
structure State where
  frequency : ℚ
  prev : ℚ
  fac : ℚ
deriving DecidableEq

/-- `BrownNoise.__init__(fac=0.5)`: frequency 0, `prev = 0`. -/
def init (fac : ℚ) : State :=
  { frequency := 0, prev := 0, fac := fac }

/-- `BrownNoise.amplitude`: update `prev` by the scaled draw, clamp, return
`prev` together with the new state.  The raw draw `u ∈ [0, 1)` is passed
explicitly; the period property is never consulted, so the call always
returns normally. -/
def amplitude (b : State) (u : ℚ) (frame : ℕ) : Except PyError (ℚ × State) :=
  let p := brownStep b.fac b.prev (u * 2 - 1)
  Except.ok (p, { b with prev := p })

end BrownNoise

theorem clamp_mem (x : ℚ) : -1 ≤ clamp x ∧ clamp x ≤ 1 := by
  unfold clamp
  split_ifs with h1 h2 <;> constructor <;> linarith

theorem clamp_close (y p : ℚ) (h0 : -1 ≤ p) (h1 : p ≤ 1) :
    |clamp y - p| ≤ |y - p| := by
  unfold clamp
  split_ifs with hy1 hy2
  · rw [abs_of_nonneg (by linarith), abs_of_nonneg (by linarith)]
    linarith
  · rw [abs_of_nonpos (by linarith), abs_of_nonpos (by linarith)]
    linarith
  · exact le_refl _

theorem brownStep_mem (fac prev d : ℚ) :
    -1 ≤ brownStep fac prev d ∧ brownStep fac prev d ≤ 1 :=
  clamp_mem _

theorem brownStep_close (fac prev d : ℚ) (hfac : 0 ≤ fac)
    (hp0 : -1 ≤ prev) (hp1 : prev ≤ 1) (hd0 : -1 ≤ d) (hd1 : d ≤ 1) :
    |brownStep fac prev d - prev| ≤ fac := by
  calc |brownStep fac prev d - prev| ≤ |prev + d * fac - prev| :=
        clamp_close _ _ hp0 hp1
    _ = |d| * fac := by
        rw [add_sub_cancel_left, abs_mul, abs_of_nonneg hfac]
    _ ≤ 1 * fac := by
        have : |d| ≤ 1 := abs_le.mpr ⟨hd0, hd1⟩
        exact mul_le_mul_of_nonneg_right this hfac
    _ = fac := one_mul fac

theorem brownOutputs_forall (fac prev : ℚ) (draws : List ℚ)
    (hd : ∀ d ∈ draws, -1 ≤ d ∧ d ≤ 1) :
    (brownOutputs fac prev draws).Forall (fun v => -1 ≤ v ∧ v ≤ 1) := by
  induction draws generalizing prev with
  | nil => exact trivial
  | cons d ds ih =>
    simp only [brownOutputs, List.forall_cons]
    refine ⟨brownStep_mem fac prev d, ?_⟩
    exact ih _ fun x hx => hd x (List.mem_cons_of_mem d hx)

theorem brownOutputs_chain (fac prev : ℚ) (draws : List ℚ) (hfac : 0 ≤ fac)
    (hp0 : -1 ≤ prev) (hp1 : prev ≤ 1)
    (hd : ∀ d ∈ draws, -1 ≤ d ∧ d ≤ 1) :
    List.Chain (fun a b => |b - a| ≤ fac) prev (brownOutputs fac prev draws) := by
  induction draws generalizing prev with
  | nil => exact List.Chain.nil
  | cons d ds ih =>
    have hdm := hd d (List.mem_cons_self d ds)
    refine List.Chain.cons
      (brownStep_close fac prev d hfac hp0 hp1 hdm.1 hdm.2) ?_
    exact ih _ (brownStep_mem fac prev d).1 (brownStep_mem fac prev d).2
      fun x hx => hd x (List.mem_cons_of_mem d hx)

theorem chain_imp_chain_of_tail {α : Type} (R : α → α → Prop) (a : α)
    (l : List α) (h : List.Chain R a l) : List.Chain' R l := by
  cases l with
  | nil => exact trivial
  | cons b t => exact (List.chain_cons.mp h).2

/-- Python's `int()` truncation toward zero on a rational. -/
def pyint (q : ℚ) : ℤ :=
  if 0 ≤ q then ⌊q⌋ else ⌈q⌉

namespace Digitar

/-- The mutable state of a `Digitar` instance: the stored wave source
(modelled as a deterministic function of the frame index), the constructor
parameters `buffersize` and derived `phaseinc`, and the mutable
`sample_window`, `cur_frame` and `phase`. -/
structure State where
  wavesrc : ℕ → ℚ
  buffersize : ℕ
  phaseinc : ℚ
  sample_window : List ℚ
  cur_frame : ℕ
  phase : ℚ

/-- `Digitar.new_buffer`: resample the wave source over `[0, buffersize)`,
reset `cur_frame` and `phase` to 0. -/
def new_buffer (s : State) : State :=
  { s with
    sample_window := (List.range s.buffersize).map s.wavesrc
    cur_frame := 0
    phase := 0 }

/-- `Digitar.__init__(frequency, buffersize, wavesrc)` with the ambient
`SAMPLE_RATE` passed explicitly: `basefreq = SAMPLE_RATE * 1. / buffersize`,
`phaseinc = frequency / basefreq`, `phase = 0`, then `new_buffer()`. -/
def init (frequency SR : ℚ) (buffersize : ℕ) (wavesrc : ℕ → ℚ) : State :=
  new_buffer
    { wavesrc := wavesrc
      buffersize := buffersize
      phaseinc := frequency / (SR * 1 / (buffersize : ℚ))
      sample_window := []
      cur_frame := 0
      phase := 0 }

/-- `Digitar.get_buffer`: `self.sample_window[frame % self.buffersize]`
(Python integer modulo is non-negative for a positive divisor). -/
def get_buffer (s : State) (frame : ℤ) : ℚ :=
  s.sample_window.getD (frame % (s.buffersize : ℤ)).toNat 0

/-- `Digitar.set_buffer`: `self.sample_window[frame % self.buffersize] = value`. -/
def set_buffer (s : State) (frame : ℤ) (value : ℚ) : State :=
  { s with
    sample_window :=
      s.sample_window.set (frame % (s.buffersize : ℤ)).toNat value }

/-- `Digitar.tick`: write the low-pass combination at `cur_frame + 1`,
increment `cur_frame`, advance `phase` modulo `buffersize`. -/
def tick (s : State) : State :=
  let s1 := set_buffer s ((s.cur_frame : ℤ) + 1)
    (get_buffer s (s.cur_frame : ℤ) * (3 / 10)
      + get_buffer s ((s.cur_frame : ℤ) + 1) * (7 / 10))
  { s1 with
    cur_frame := s.cur_frame + 1
    phase := fmod (s.phase + s.phaseinc) (s.buffersize : ℚ) }

/-- Iterate `tick` a fixed number of times. -/
def tickN (s : State) : ℕ → State
  | 0 => s
  | n + 1 => tickN (tick s) n

/-- `Digitar.seek`: if `frame < cur_frame`, set `cur_frame = 0`; then tick
while `cur_frame < frame`.  Since each tick increments `cur_frame` by one,
the while loop runs exactly `frame - cur_frame` times. -/
def seek (s : State) (frame : ℕ) : State :=
  let s0 := if frame < s.cur_frame then { s with cur_frame := 0 } else s
  tickN s0 (frame - s0.cur_frame)

/-- `Digitar.amplitude`: seek to `frame`, then linearly interpolate between
the wavetable entries at `int(phase)` and `int(phase) + 1`.  Returns the
amplitude together with the state after the call. -/
def amplitude (s : State) (frame : ℕ) : ℚ × State :=
  let t := seek s frame
  let s1 := get_buffer t (pyint t.phase)
  let s2 := get_buffer t (pyint t.phase + 1)
  let interp := t.phase - (pyint t.phase : ℚ)
  (interp * s2 + (1 - interp) * s1, t)

/-- Run a sequence of `amplitude` queries, threading the state. -/
def runQueries (s : State) (qs : List ℕ) : State :=
  qs.foldl (fun t q => (amplitude t q).2) s

/-- The state invariant of claim C2: the wavetable has exactly `buffersize`
entries, `buffersize` is positive, and `0 ≤ phase < buffersize`. -/
def Inv (s : State) : Prop :=
  s.sample_window.length = s.buffersize ∧ 0 < s.buffersize ∧
    0 ≤ s.phase ∧ s.phase < (s.buffersize : ℚ)

instance (s : State) : Decidable (Inv s) := by
  unfold Inv
  infer_instance

/-- Claim C1 states that a backward seek reinitializes the buffer before
ticking forward; this definition follows the spec's words (`new_buffer` on
the backward branch) and is compared with `seek`, which follows the code. -/
def seek_spec (s : State) (frame : ℕ) : State :=
  let s0 := if frame < s.cur_frame then new_buffer s else s
  tickN s0 (frame - s0.cur_frame)

/-- The linear-interpolation read described by the spec: weight
`w = phase - floor(phase)` between the wavetable entries at circular indices
`floor(phase)` and `floor(phase) + 1`. -/
def amplitude_spec (t : State) : ℚ :=
  let w := t.phase - (⌊t.phase⌋ : ℚ)
  (1 - w) * t.sample_window.getD (⌊t.phase⌋.toNat % t.buffersize) 0
    + w * t.sample_window.getD ((⌊t.phase⌋.toNat + 1) % t.buffersize) 0

theorem tick_cur_frame (s : State) : (tick s).cur_frame = s.cur_frame + 1 := rfl

theorem tick_buffersize (s : State) : (tick s).buffersize = s.buffersize := rfl

theorem tick_wavesrc (s : State) : (tick s).wavesrc = s.wavesrc := rfl

theorem tick_phaseinc (s : State) : (tick s).phaseinc = s.phaseinc := rfl

theorem tick_phase (s : State) :
    (tick s).phase = fmod (s.phase + s.phaseinc) (s.buffersize : ℚ) := rfl

theorem tick_window_length (s : State) :
    (tick s).sample_window.length = s.sample_window.length := by
  simp [tick, set_buffer]

theorem tickN_cur_frame (n : ℕ) (s : State) :
    (tickN s n).cur_frame = s.cur_frame + n := by
  induction n generalizing s with
  | zero => rfl
  | succ n ih =>
    rw [tickN, ih, tick_cur_frame]
    omega

theorem tickN_buffersize (n : ℕ) (s : State) :
    (tickN s n).buffersize = s.buffersize := by
  induction n generalizing s with
  | zero => rfl
  | succ n ih => rw [tickN, ih, tick_buffersize]

theorem tickN_wavesrc (n : ℕ) (s : State) :
    (tickN s n).wavesrc = s.wavesrc := by
  induction n generalizing s with
  | zero => rfl
  | succ n ih => rw [tickN, ih, tick_wavesrc]

theorem tickN_phaseinc (n : ℕ) (s : State) :
    (tickN s n).phaseinc = s.phaseinc := by
  induction n generalizing s with
  | zero => rfl
  | succ n ih => rw [tickN, ih, tick_phaseinc]

theorem Inv_tick (s : State) (hs : Inv s) : Inv (tick s) := by
  obtain ⟨hlen, hpos, h0, h1⟩ := hs
  have hb : (0 : ℚ) < (s.buffersize : ℚ) := by exact_mod_cast hpos
  refine ⟨?_, hpos, ?_, ?_⟩
  · rw [tick_window_length, tick_buffersize, hlen]
  · exact fmod_nonneg _ _ hb
  · exact fmod_lt _ _ hb

theorem Inv_tickN (n : ℕ) (s : State) (hs : Inv s) : Inv (tickN s n) := by
  induction n generalizing s with
  | zero => exact hs
  | succ n ih => exact ih _ (Inv_tick s hs)

theorem Inv_new_buffer (s : State) (hpos : 0 < s.buffersize) :
    Inv (new_buffer s) := by
  refine ⟨?_, hpos, le_refl 0, ?_⟩
  · simp [new_buffer]
  · show (0 : ℚ) < (s.buffersize : ℚ)
    exact_mod_cast hpos

theorem Inv_init (frequency SR : ℚ) (N : ℕ) (w : ℕ → ℚ) (hN : 0 < N) :
    Inv (init frequency SR N w) :=
  Inv_new_buffer _ hN

theorem Inv_cur_frame_reset (s : State) (hs : Inv s) :
    Inv { s with cur_frame := 0 } := hs

theorem Inv_seek (s : State) (f : ℕ) (hs : Inv s) : Inv (seek s f) := by
  by_cases h : f < s.cur_frame
  · simp only [seek, if_pos h]
    exact Inv_tickN _ _ hs
  · simp only [seek, if_neg h]
    exact Inv_tickN _ _ hs

theorem seek_cur_frame (s : State) (f : ℕ) : (seek s f).cur_frame = f := by
  by_cases h : f < s.cur_frame
  · simp only [seek, if_pos h]
    rw [tickN_cur_frame]
    show 0 + (f - 0) = f
    omega
  · simp only [seek, if_neg h]
    rw [tickN_cur_frame]
    omega

theorem seek_eq_of_cur_frame_eq (s : State) (f : ℕ) (h : s.cur_frame = f) :
    seek s f = s := by
  simp only [seek, if_neg (show ¬f < s.cur_frame by omega)]
  rw [h, Nat.sub_self]
  rfl

theorem seek_back (s : State) (f : ℕ) (h : f < s.cur_frame) :
    seek s f = tickN { s with cur_frame := 0 } f := by
  simp only [seek, if_pos h]
  rw [Nat.sub_zero]

theorem amplitude_snd (s : State) (f : ℕ) : (amplitude s f).2 = seek s f := rfl

theorem Inv_amplitude (s : State) (f : ℕ) (hs : Inv s) :
    Inv (amplitude s f).2 := Inv_seek s f hs

theorem Inv_runQueries (s : State) (qs : List ℕ) (hs : Inv s) :
    Inv (runQueries s qs) := by
  induction qs generalizing s with
  | nil => exact hs
  | cons q qs ih => exact ih _ (Inv_amplitude s q hs)

theorem tick_wavesrc_update (s : State) (w : ℕ → ℚ) :
    tick { s with wavesrc := w } = { tick s with wavesrc := w } := rfl

theorem tickN_wavesrc_update (n : ℕ) (s : State) (w : ℕ → ℚ) :
    tickN { s with wavesrc := w } n = { tickN s n with wavesrc := w } := by
  induction n generalizing s with
  | zero => rfl
  | succ n ih =>
    show tickN (tick { s with wavesrc := w }) n = _
    rw [tick_wavesrc_update, ih]
    rfl

theorem seek_wavesrc_update (s : State) (w : ℕ → ℚ) (f : ℕ) :
    seek { s with wavesrc := w } f = { seek s f with wavesrc := w } := by
  by_cases h : f < s.cur_frame
  · simp only [seek, if_pos h]
    exact tickN_wavesrc_update f { s with cur_frame := 0 } w
  · simp only [seek, if_neg h]
    exact tickN_wavesrc_update _ s w

theorem amplitude_wavesrc_update (s : State) (w : ℕ → ℚ) (f : ℕ) :
    (amplitude { s with wavesrc := w } f).1 = (amplitude s f).1 := by
  unfold amplitude
  rw [seek_wavesrc_update]
  rfl

/-- For a non-negative integer index, `toNat` commutes with Python's modulo
by a natural divisor. -/
theorem toNat_emod (a : ℤ) (n : ℕ) (ha : 0 ≤ a) :
    (a % (n : ℤ)).toNat = a.toNat % n := by
  obtain ⟨m, rfl⟩ := Int.eq_ofNat_of_zero_le ha
  rw [← Int.natCast_mod, Int.toNat_natCast, Int.toNat_natCast]

theorem get_buffer_natCast (s : State) (i : ℕ) :
    get_buffer s (i : ℤ) = s.sample_window.getD (i % s.buffersize) 0 := by
  unfold get_buffer
  rw [toNat_emod _ _ (Int.natCast_nonneg i), Int.toNat_natCast]

theorem getD_map_range (n i : ℕ) (f : ℕ → ℚ) (h : i < n) :
    ((List.range n).map f).getD i 0 = f i := by
  rw [List.getD_eq_getElem _ _ (by simpa using h)]
  simp

theorem amplitude_fst_spec (s : State) (f : ℕ) (hs : Inv s) :
    (amplitude s f).1 = amplitude_spec (seek s f) := by
  obtain ⟨hlen, hpos, h0, h1⟩ := Inv_seek s f hs
  have hp : pyint (seek s f).phase = ⌊(seek s f).phase⌋ := by
    unfold pyint
    rw [if_pos h0]
  have hfl0 : (0 : ℤ) ≤ ⌊(seek s f).phase⌋ := Int.le_floor.mpr (by exact_mod_cast h0)
  have h2 : (⌊(seek s f).phase⌋ + 1).toNat = ⌊(seek s f).phase⌋.toNat + 1 := by omega
  unfold amplitude amplitude_spec get_buffer
  dsimp only
  rw [hp, toNat_emod _ _ hfl0, toNat_emod _ _ (by omega), h2]
  ring

theorem amplitude_init_zero (frequency SR : ℚ) (N : ℕ) (w : ℕ → ℚ)
    (hN : 0 < N) : (amplitude (init frequency SR N w) 0).1 = w 0 := by
  have hseek : seek (init frequency SR N w) 0 = init frequency SR N w :=
    seek_eq_of_cur_frame_eq _ _ rfl
  unfold amplitude
  dsimp only
  rw [hseek]
  have hphase : (init frequency SR N w).phase = 0 := rfl
  rw [hphase]
  have hpy : pyint 0 = 0 := by
    unfold pyint
    rw [if_pos (le_refl (0 : ℚ)), Int.floor_zero]
  rw [hpy]
  have hgb : get_buffer (init frequency SR N w) 0 = w 0 := by
    unfold get_buffer
    have hz : ((0 : ℤ) % ((init frequency SR N w).buffersize : ℤ)).toNat = 0 := by
      rw [Int.zero_emod]
      rfl
    rw [hz]
    show ((List.range N).map w).getD 0 0 = w 0
    exact getD_map_range N 0 w hN
  rw [hgb]
  push_cast
  ring

theorem tick_window_getD_target (s : State) (hs : Inv s) :
    (tick s).sample_window.getD ((s.cur_frame + 1) % s.buffersize) 0
      = (3 / 10) * s.sample_window.getD (s.cur_frame % s.buffersize) 0
        + (7 / 10) * s.sample_window.getD ((s.cur_frame + 1) % s.buffersize) 0 := by
  obtain ⟨hlen, hpos, h0, h1⟩ := hs
  have hidx : (((s.cur_frame : ℤ) + 1) % (s.buffersize : ℤ)).toNat
      = (s.cur_frame + 1) % s.buffersize := by
    have : ((s.cur_frame : ℤ) + 1) = ((s.cur_frame + 1 : ℕ) : ℤ) := by push_cast; ring
    rw [this, toNat_emod _ _ (Int.natCast_nonneg _), Int.toNat_natCast]
  have hlt : (s.cur_frame + 1) % s.buffersize < s.sample_window.length := by
    rw [hlen]
    exact Nat.mod_lt _ hpos
  show (s.sample_window.set ((((s.cur_frame : ℤ) + 1) % (s.buffersize : ℤ)).toNat) _).getD
      ((s.cur_frame + 1) % s.buffersize) 0 = _
  rw [hidx, List.getD_eq_getElem _ _ (by simpa using hlt),
    List.getElem_set_self (by simpa using hlt)]
  rw [get_buffer_natCast]
  have hc1 : get_buffer s ((s.cur_frame : ℤ) + 1)
      = s.sample_window.getD ((s.cur_frame + 1) % s.buffersize) 0 := by
    have : ((s.cur_frame : ℤ) + 1) = ((s.cur_frame + 1 : ℕ) : ℤ) := by push_cast; ring
    rw [this, get_buffer_natCast]
  rw [hc1]
  ring

theorem tick_window_getD_other (s : State) (j : ℕ) (hs : Inv s)
    (hj : j < s.buffersize) (hne : j ≠ (s.cur_frame + 1) % s.buffersize) :
    (tick s).sample_window.getD j 0 = s.sample_window.getD j 0 := by
  obtain ⟨hlen, hpos, h0, h1⟩ := hs
  have hidx : (((s.cur_frame : ℤ) + 1) % (s.buffersize : ℤ)).toNat
      = (s.cur_frame + 1) % s.buffersize := by
    have : ((s.cur_frame : ℤ) + 1) = ((s.cur_frame + 1 : ℕ) : ℤ) := by push_cast; ring
    rw [this, toNat_emod _ _ (Int.natCast_nonneg _), Int.toNat_natCast]
  have hjl : j < s.sample_window.length := by
    rw [hlen]
    exact hj
  show (s.sample_window.set ((((s.cur_frame : ℤ) + 1) % (s.buffersize : ℤ)).toNat) _).getD
      j 0 = _
  rw [hidx, List.getD_eq_getElem _ _ (by simpa using hjl),
    List.getElem_set_of_ne (fun hc => hne hc.symm) _ (by simpa using hjl),
    List.getD_eq_getElem _ _ hjl]

end Digitar

/-- A concrete deterministic wave source (an impulse at frame 0) used to
instantiate the Digitar theorems on concrete inputs. -/
def exampleSrc : ℕ → ℚ := fun i => if i = 0 then 1 else 0

/-- A concrete Digitar: frequency 1, sample rate 4, buffer size 2, impulse seed. -/
def sC : Digitar.State := Digitar.init 1 4 2 exampleSrc

/-- C1: the claim states that a backward seek reinitializes the buffer
(reseeding the wavetable from the wave source and resetting `cur_frame`
and `phase` to 0) before ticking forward.  The code only resets
`cur_frame`; on the concrete state `tick sC` (where `cur_frame = 1`),
seeking back to frame 0 yields a different wavetable than the
spec-described `seek_spec`. -/
theorem C1_counterexample :
    0 < (Digitar.tick sC).cur_frame ∧
      Digitar.seek (Digitar.tick sC) 0 ≠ Digitar.seek_spec (Digitar.tick sC) 0 := by
  have hseek : Digitar.seek (Digitar.tick sC) 0 = { Digitar.tick sC with cur_frame := 0 } := by
    rw [Digitar.seek_back _ _ (by decide)]
    rfl
  have hwin : (Digitar.tick sC).sample_window
      = [1, Digitar.get_buffer sC 0 * (3 / 10) + Digitar.get_buffer sC 1 * (7 / 10)] :=
    rfl
  have hg0 : Digitar.get_buffer sC 0 = 1 := by decide
  have hg1 : Digitar.get_buffer sC 1 = 0 := by decide
  have hwin2 : (Digitar.tick sC).sample_window = [1, 3 / 10] := by
    rw [hwin, hg0, hg1]
    norm_num
  have hspec : (Digitar.seek_spec (Digitar.tick sC) 0).sample_window = [1, 0] := by
    decide
  refine ⟨by decide, fun h => ?_⟩
  have h2 := congrArg Digitar.State.sample_window h
  rw [hseek, hspec] at h2
  have h3 : (Digitar.tick sC).sample_window = [1, 0] := h2
  rw [hwin2] at h3
  have h4 := List.head_eq_of_cons_eq (List.tail_eq_of_cons_eq h3)
  norm_num at h4

/-- C1 (amended): for every Digitar instance, calling `seek(target_frame)`
with `target_frame < cur_frame` resets `cur_frame` to 0 while leaving the
wavetable and `phase` unchanged (no reseeding from the wave source), and
then ticks forward to `target_frame`. -/
theorem C1_amended_backward_seek (s : Digitar.State) (f : ℕ)
    (h : f < s.cur_frame) :
    Digitar.seek s f = Digitar.tickN { s with cur_frame := 0 } f ∧
      ({ s with cur_frame := 0 } : Digitar.State).sample_window = s.sample_window ∧
      ({ s with cur_frame := 0 } : Digitar.State).phase = s.phase :=
  ⟨Digitar.seek_back s f h, rfl, rfl⟩

/-- C1 witness: the amended statement at the concrete state `tick sC` and
target frame 0. -/
theorem C1_amended_backward_seek_witness :
    0 < (Digitar.tick sC).cur_frame ∧
      (Digitar.seek (Digitar.tick sC) 0
          = Digitar.tickN { Digitar.tick sC with cur_frame := 0 } 0 ∧
        ({ Digitar.tick sC with cur_frame := 0 } : Digitar.State).sample_window
          = (Digitar.tick sC).sample_window ∧
        ({ Digitar.tick sC with cur_frame := 0 } : Digitar.State).phase
          = (Digitar.tick sC).phase) :=
  ⟨by decide, C1_amended_backward_seek (Digitar.tick sC) 0 (by decide)⟩

/-- C2: for every Digitar constructed with positive frequency and positive
buffer size, the invariant (wavetable length equals `buffersize`,
`buffersize` positive, `0 ≤ phase < buffersize`; `cur_frame ≥ 0` holds by
its type) holds after construction and is preserved by `new_buffer`,
`tick`, `seek`, `amplitude`, and every sequence of frame queries. -/
theorem C2_invariant (frequency SR : ℚ) (N : ℕ) (w : ℕ → ℚ)
    (s : Digitar.State) (f : ℕ) (qs : List ℕ)
    (hf : 0 < frequency) (hN : 0 < N) (hs : Digitar.Inv s) :
    Digitar.Inv (Digitar.init frequency SR N w) ∧
      Digitar.Inv (Digitar.new_buffer s) ∧
      Digitar.Inv (Digitar.tick s) ∧
      Digitar.Inv (Digitar.seek s f) ∧
      Digitar.Inv (Digitar.amplitude s f).2 ∧
      Digitar.Inv (Digitar.runQueries s qs) :=
  ⟨Digitar.Inv_init frequency SR N w hN,
    Digitar.Inv_new_buffer s hs.2.1,
    Digitar.Inv_tick s hs,
    Digitar.Inv_seek s f hs,
    Digitar.Inv_amplitude s f hs,
    Digitar.Inv_runQueries s qs hs⟩

/-- C2 witness: the invariant statement at the concrete state `sC` with
frequency 1, sample rate 4, buffer size 2 and query sequence `[3, 1]`. -/
theorem C2_invariant_witness :
    (0 : ℚ) < 1 ∧ 0 < 2 ∧ Digitar.Inv sC ∧
      (Digitar.Inv (Digitar.init 1 4 2 exampleSrc) ∧
        Digitar.Inv (Digitar.new_buffer sC) ∧
        Digitar.Inv (Digitar.tick sC) ∧
        Digitar.Inv (Digitar.seek sC 2) ∧
        Digitar.Inv (Digitar.amplitude sC 2).2 ∧
        Digitar.Inv (Digitar.runQueries sC [3, 1])) :=
  ⟨by decide, by decide, by decide,
    C2_invariant 1 4 2 exampleSrc sC 2 [3, 1] (by decide) (by decide) (by decide)⟩

/-- C3: for every Digitar state and frame `F ≥ cur_frame`, a second
`amplitude(F)` call returns the same value and the same state as the
first, because seeking to `F` when `cur_frame = F` performs zero ticks. -/
theorem C3_forward_idempotent (s : Digitar.State) (F : ℕ)
    (h : s.cur_frame ≤ F) :
    (Digitar.amplitude (Digitar.amplitude s F).2 F).1 = (Digitar.amplitude s F).1 ∧
      (Digitar.amplitude (Digitar.amplitude s F).2 F).2 = (Digitar.amplitude s F).2 ∧
      Digitar.seek (Digitar.amplitude s F).2 F = (Digitar.amplitude s F).2 := by
  have hfix : Digitar.seek (Digitar.seek s F) F = Digitar.seek s F :=
    Digitar.seek_eq_of_cur_frame_eq _ _ (Digitar.seek_cur_frame s F)
  have hamp : Digitar.amplitude (Digitar.seek s F) F = Digitar.amplitude s F := by
    unfold Digitar.amplitude
    rw [hfix]
  have hsnd : (Digitar.amplitude s F).2 = Digitar.seek s F := rfl
  rw [hsnd, hamp]
  exact ⟨rfl, rfl, hfix⟩

/-- C3 witness: idempotence of forward queries at the concrete state `sC`
and frame 2. -/
theorem C3_forward_idempotent_witness :
    sC.cur_frame ≤ 2 ∧
      ((Digitar.amplitude (Digitar.amplitude sC 2).2 2).1
          = (Digitar.amplitude sC 2).1 ∧
        (Digitar.amplitude (Digitar.amplitude sC 2).2 2).2
          = (Digitar.amplitude sC 2).2 ∧
        Digitar.seek (Digitar.amplitude sC 2).2 2 = (Digitar.amplitude sC 2).2) :=
  ⟨by decide, C3_forward_idempotent sC 2 (by decide)⟩

/-- C4: for every Digitar state satisfying the invariant, `amplitude(frame)`
returns the spec's linear interpolation
`(1-w) * wavetable[floor(phase) mod N] + w * wavetable[(floor(phase)+1) mod N]`
with `w = phase - floor(phase)` evaluated at the state reached by seeking;
and a freshly constructed Digitar with a deterministic wave source returns
the seed value `wave_source.amplitude(0)` at frame 0. -/
theorem C4_interpolation (s : Digitar.State) (f : ℕ) (frequency SR : ℚ)
    (N : ℕ) (w : ℕ → ℚ) (hs : Digitar.Inv s) (hN : 0 < N) :
    (Digitar.amplitude s f).1 = Digitar.amplitude_spec (Digitar.seek s f) ∧
      (Digitar.amplitude (Digitar.init frequency SR N w) 0).1 = w 0 :=
  ⟨Digitar.amplitude_fst_spec s f hs,
    Digitar.amplitude_init_zero frequency SR N w hN⟩

/-- C4 witness: the interpolation formula at the concrete state `sC`,
frame 1, and the fresh-construction case with the impulse seed. -/
theorem C4_interpolation_witness :
    Digitar.Inv sC ∧ 0 < 2 ∧
      ((Digitar.amplitude sC 1).1 = Digitar.amplitude_spec (Digitar.seek sC 1) ∧
        (Digitar.amplitude (Digitar.init 1 4 2 exampleSrc) 0).1 = exampleSrc 0) :=
  ⟨by decide, by decide,
    C4_interpolation sC 1 1 4 2 exampleSrc (by decide) (by decide)⟩

/-- C5: one tick writes `0.3 * wavetable[cur_frame mod N] +
0.7 * wavetable[(cur_frame+1) mod N]` at circular index `(cur_frame+1) mod N`,
leaves every other wavetable entry and every other field unchanged,
increments `cur_frame` by exactly 1, and advances
`phase` to `(phase + phaseinc) mod buffersize`, where the constructor set
`phaseinc = frequency / (SAMPLE_RATE / buffersize)`. -/
theorem C5_tick_transition (s : Digitar.State) (j : ℕ) (frequency SR : ℚ)
    (N : ℕ) (w : ℕ → ℚ) (hs : Digitar.Inv s) (hj : j < s.buffersize)
    (hne : j ≠ (s.cur_frame + 1) % s.buffersize) :
    (Digitar.tick s).cur_frame = s.cur_frame + 1 ∧
      (Digitar.tick s).phase = fmod (s.phase + s.phaseinc) (s.buffersize : ℚ) ∧
      (Digitar.tick s).sample_window.getD ((s.cur_frame + 1) % s.buffersize) 0
        = (3 / 10) * s.sample_window.getD (s.cur_frame % s.buffersize) 0
          + (7 / 10) * s.sample_window.getD ((s.cur_frame + 1) % s.buffersize) 0 ∧
      (Digitar.tick s).sample_window.getD j 0 = s.sample_window.getD j 0 ∧
      (Digitar.tick s).buffersize = s.buffersize ∧
      (Digitar.tick s).phaseinc = s.phaseinc ∧
      (Digitar.tick s).wavesrc = s.wavesrc ∧
      (Digitar.tick s).sample_window.length = s.sample_window.length ∧
      (Digitar.init frequency SR N w).phaseinc = frequency / (SR / (N : ℚ)) := by
  refine ⟨rfl, rfl, Digitar.tick_window_getD_target s hs,
    Digitar.tick_window_getD_other s j hs hj hne, rfl, rfl, rfl,
    Digitar.tick_window_length s, ?_⟩
  show frequency / (SR * 1 / (N : ℚ)) = frequency / (SR / (N : ℚ))
  rw [mul_one]

/-- C5 witness: the tick transition at the concrete state `sC` with
untouched index 0 (the written index is `(0+1) mod 2 = 1`). -/
theorem C5_tick_transition_witness :
    Digitar.Inv sC ∧ 0 < sC.buffersize ∧ 0 ≠ (sC.cur_frame + 1) % sC.buffersize ∧
      ((Digitar.tick sC).cur_frame = sC.cur_frame + 1 ∧
        (Digitar.tick sC).phase = fmod (sC.phase + sC.phaseinc) (sC.buffersize : ℚ) ∧
        (Digitar.tick sC).sample_window.getD ((sC.cur_frame + 1) % sC.buffersize) 0
          = (3 / 10) * sC.sample_window.getD (sC.cur_frame % sC.buffersize) 0
            + (7 / 10) * sC.sample_window.getD ((sC.cur_frame + 1) % sC.buffersize) 0 ∧
        (Digitar.tick sC).sample_window.getD 0 0 = sC.sample_window.getD 0 0 ∧
        (Digitar.tick sC).buffersize = sC.buffersize ∧
        (Digitar.tick sC).phaseinc = sC.phaseinc ∧
        (Digitar.tick sC).wavesrc = sC.wavesrc ∧
        (Digitar.tick sC).sample_window.length = sC.sample_window.length ∧
        (Digitar.init 1 4 2 exampleSrc).phaseinc = 1 / (4 / (2 : ℚ))) :=
  ⟨by decide, by decide, by decide,
    C5_tick_transition sC 0 1 4 2 exampleSrc (by decide) (by decide) (by decide)⟩

/-- C6: for SineWave, SquareWave (with `split` in `(0,1)`), SawtoothWave and
TriangleWave constructed with positive frequency (and the ambient positive
sample rate), every amplitude at a non-negative frame lies in `[-1, 1]`. -/
theorem C6_amplitude_range (SRr freqr : ℝ) (SR frequency split : ℚ) (f : ℕ)
    (hfr : 0 < freqr) (hSRr : 0 < SRr) (hf : 0 < frequency) (hSR : 0 < SR)
    (hs1 : 0 < split) (hs2 : split < 1) :
    (-1 ≤ SineWave.amplitude SRr freqr f ∧ SineWave.amplitude SRr freqr f ≤ 1) ∧
      (-1 ≤ SquareWave.amplitude SR frequency split f ∧
        SquareWave.amplitude SR frequency split f ≤ 1) ∧
      (-1 ≤ SawtoothWave.amplitude SR frequency f ∧
        SawtoothWave.amplitude SR frequency f ≤ 1) ∧
      (-1 ≤ TriangleWave.amplitude SR frequency f ∧
        TriangleWave.amplitude SR frequency f ≤ 1) :=
  ⟨SineWave.sine_mem SRr freqr f,
    SquareWave.square_mem SR frequency split f,
    SawtoothWave.sawtooth_mem SR frequency f hSR hf,
    TriangleWave.triangle_mem SR frequency f hSR hf⟩

/-- C6 witness: the range statement at sample rate 44100, frequency 110,
split 1/2, frame 7. -/
theorem C6_amplitude_range_witness :
    (0 : ℝ) < 110 ∧ (0 : ℝ) < 44100 ∧ (0 : ℚ) < 110 ∧ (0 : ℚ) < 44100 ∧
      (0 : ℚ) < 1 / 2 ∧ (1 : ℚ) / 2 < 1 ∧
      ((-1 ≤ SineWave.amplitude 44100 110 7 ∧ SineWave.amplitude 44100 110 7 ≤ 1) ∧
        (-1 ≤ SquareWave.amplitude 44100 110 (1 / 2) 7 ∧
          SquareWave.amplitude 44100 110 (1 / 2) 7 ≤ 1) ∧
        (-1 ≤ SawtoothWave.amplitude 44100 110 7 ∧
          SawtoothWave.amplitude 44100 110 7 ≤ 1) ∧
        (-1 ≤ TriangleWave.amplitude 44100 110 7 ∧
          TriangleWave.amplitude 44100 110 7 ≤ 1)) :=
  ⟨by norm_num, by norm_num, by norm_num, by norm_num, by norm_num, by norm_num,
    C6_amplitude_range 44100 110 44100 110 (1 / 2) 7 (by norm_num) (by norm_num)
      (by norm_num) (by norm_num) (by norm_num) (by norm_num)⟩

/-- C7: for each periodic generator whose period `sample_rate / frequency`
is a positive integer `p`, the amplitude at `f + k * p` equals the
amplitude at `f` for every non-negative frame `f` and natural `k`. -/
theorem C7_periodicity (SRr freqr : ℝ) (SR frequency split : ℚ) (p f k : ℕ)
    (hp : 0 < p) (hpr : (p : ℝ) = Sample.period SRr freqr)
    (hpq : (p : ℚ) = Sample.period SR frequency) :
    SineWave.amplitude SRr freqr (f + k * p) = SineWave.amplitude SRr freqr f ∧
      SquareWave.amplitude SR frequency split (f + k * p)
        = SquareWave.amplitude SR frequency split f ∧
      SawtoothWave.amplitude SR frequency (f + k * p)
        = SawtoothWave.amplitude SR frequency f ∧
      TriangleWave.amplitude SR frequency (f + k * p)
        = TriangleWave.amplitude SR frequency f :=
  ⟨SineWave.sine_periodic SRr freqr p f k hp hpr,
    SquareWave.square_periodic SR frequency split p f k hp hpq,
    SawtoothWave.sawtooth_periodic SR frequency p f k hp hpq,
    TriangleWave.triangle_periodic SR frequency p f k hp hpq⟩

/-- C7 witness: periodicity at sample rate 8, frequency 2 (integer
period 4), frame 3, two periods ahead. -/
theorem C7_periodicity_witness :
    0 < 4 ∧ ((4 : ℕ) : ℝ) = Sample.period 8 2 ∧ ((4 : ℕ) : ℚ) = Sample.period 8 2 ∧
      (SineWave.amplitude 8 2 (3 + 2 * 4) = SineWave.amplitude 8 2 3 ∧
        SquareWave.amplitude 8 2 (1 / 2) (3 + 2 * 4) = SquareWave.amplitude 8 2 (1 / 2) 3 ∧
        SawtoothWave.amplitude 8 2 (3 + 2 * 4) = SawtoothWave.amplitude 8 2 3 ∧
        TriangleWave.amplitude 8 2 (3 + 2 * 4) = TriangleWave.amplitude 8 2 3) :=
  ⟨by decide, by norm_num [Sample.period], by norm_num [Sample.period],
    C7_periodicity 8 2 8 2 (1 / 2) 4 3 2 (by decide)
      (by norm_num [Sample.period]) (by norm_num [Sample.period])⟩

/-- C8: for a freshly constructed BrownNoise with positive `fac` and any
sequence of random draws in `[-1, 1]`, every returned value lies in
`[-1, 1]` and consecutive returned values differ by at most `fac`. -/
theorem C8_brown_noise (fac : ℚ) (draws : List ℚ) (hfac : 0 < fac)
    (hd : ∀ d ∈ draws, -1 ≤ d ∧ d ≤ 1) :
    ((brownOutputs fac (BrownNoise.init fac).prev draws).Forall
        fun v => -1 ≤ v ∧ v ≤ 1) ∧
      List.Chain' (fun a b => |b - a| ≤ fac)
        (brownOutputs fac (BrownNoise.init fac).prev draws) := by
  constructor
  · exact brownOutputs_forall fac _ draws hd
  · refine chain_imp_chain_of_tail _ (BrownNoise.init fac).prev _
      (brownOutputs_chain fac _ draws hfac.le ?_ ?_ hd)
    · show (-1 : ℚ) ≤ 0
      norm_num
    · show (0 : ℚ) ≤ 1
      norm_num

/-- C8 witness: the bounds at `fac = 1` on the draw sequence `[1, -1, 0]`. -/
theorem C8_brown_noise_witness :
    (0 : ℚ) < 1 ∧ (∀ d ∈ [(1 : ℚ), -1, 0], -1 ≤ d ∧ d ≤ 1) ∧
      (((brownOutputs 1 (BrownNoise.init 1).prev [1, -1, 0]).Forall
          fun v => -1 ≤ v ∧ v ≤ 1) ∧
        List.Chain' (fun a b => |b - a| ≤ 1)
          (brownOutputs 1 (BrownNoise.init 1).prev [1, -1, 0])) :=
  ⟨by decide, by decide, C8_brown_noise 1 [1, -1, 0] (by decide) (by decide)⟩

/-- C9: after construction the wave source is never sampled again: a
backward seek only resets `cur_frame` to 0, leaving `phase` and the whole
wavetable unchanged, then ticks forward on the retained state; and the
result of `tick`, `seek` and `amplitude` is independent of the stored
`wavesrc` field. -/
theorem C9_no_reseeding (s : Digitar.State) (w : ℕ → ℚ) (f g : ℕ)
    (h : f < s.cur_frame) :
    Digitar.seek s f = Digitar.tickN { s with cur_frame := 0 } f ∧
      ({ s with cur_frame := 0 } : Digitar.State).sample_window = s.sample_window ∧
      ({ s with cur_frame := 0 } : Digitar.State).phase = s.phase ∧
      Digitar.tick { s with wavesrc := w } = { Digitar.tick s with wavesrc := w } ∧
      Digitar.seek { s with wavesrc := w } g = { Digitar.seek s g with wavesrc := w } ∧
      (Digitar.amplitude { s with wavesrc := w } g).1 = (Digitar.amplitude s g).1 :=
  ⟨Digitar.seek_back s f h, rfl, rfl, Digitar.tick_wavesrc_update s w,
    Digitar.seek_wavesrc_update s w g, Digitar.amplitude_wavesrc_update s w g⟩

/-- C9 witness: the no-reseeding statement at the concrete state `tick sC`,
backward target 0, query frame 3, replacement source constantly 5. -/
theorem C9_no_reseeding_witness :
    0 < (Digitar.tick sC).cur_frame ∧
      (Digitar.seek (Digitar.tick sC) 0
          = Digitar.tickN { Digitar.tick sC with cur_frame := 0 } 0 ∧
        ({ Digitar.tick sC with cur_frame := 0 } : Digitar.State).sample_window
          = (Digitar.tick sC).sample_window ∧
        ({ Digitar.tick sC with cur_frame := 0 } : Digitar.State).phase
          = (Digitar.tick sC).phase ∧
        Digitar.tick { Digitar.tick sC with wavesrc := fun _ => 5 }
          = { Digitar.tick (Digitar.tick sC) with wavesrc := fun _ => 5 } ∧
        Digitar.seek { Digitar.tick sC with wavesrc := fun _ => 5 } 3
          = { Digitar.seek (Digitar.tick sC) 3 with wavesrc := fun _ => 5 } ∧
        (Digitar.amplitude { Digitar.tick sC with wavesrc := fun _ => 5 } 3).1
          = (Digitar.amplitude (Digitar.tick sC) 3).1) :=
  ⟨by decide, C9_no_reseeding (Digitar.tick sC) (fun _ => 5) 0 3 (by decide)⟩

/-- C10: Noise and BrownNoise store frequency 0, their `amplitude`
implementations return normally for every frame and never consult the
`period` property, while evaluating `period` at their stored frequency
would raise `ZeroDivisionError`. -/
theorem C10_no_period_evaluation (SR u fac : ℚ) (f : ℕ) (b : BrownNoise.State) :
    Noise.frequency = 0 ∧ (BrownNoise.init fac).frequency = 0 ∧
      returnsNormally (Noise.amplitude u f) ∧
      returnsNormally (BrownNoise.amplitude b u f) ∧
      Sample.periodE SR Noise.frequency = Except.error PyError.zeroDivision ∧
      Sample.periodE SR (BrownNoise.init fac).frequency
        = Except.error PyError.zeroDivision := by
  refine ⟨rfl, rfl, ⟨u * 2 - 1, rfl⟩, ⟨_, rfl⟩, ?_, ?_⟩
  · simp [Sample.periodE, Noise.frequency]
  · simp [Sample.periodE, BrownNoise.init]

end Sound
